import Mathlib

/-!
Shallow embedding of the authentication and session-integrity subsystem of
the cakeartcollective.com repository: the password hasher, credential
loader, authenticator, session-token codec and cookie helpers of
src/lib/auth.ts, the request-gate middleware, and the Airtable client's
updateSite authorization check and field allowlist.

Modelling conventions:
* JavaScript strings are modelled as lists of characters (abbrev Str).
* The cryptographic primitives PBKDF2 (crypto.subtle.deriveBits) and
  HMAC-SHA256 (crypto.subtle.sign / crypto.subtle.verify) are opaque keyed
  byte functions; every definition that uses them is parameterised by the
  primitive, and theorems assume only that it outputs bytes (values < 256)
  and, where relevant, exactly 32 of them.  crypto.subtle.verify is
  modelled by its specified behaviour: recompute the MAC over the data and
  compare it with the provided signature bytes.
* Date.now() is an explicit parameter (now : Int, milliseconds).
* btoa and atob are implemented (latin-1 check, padding, the forgiving
  decode of the HTML standard: whitespace stripping, padding stripping,
  length-mod-4 check, alphabet check).
* JSON.stringify of the session payload object is implemented exactly
  (member order email, name, exp; full string escaping).  JSON.parse at a
  TypeScript type ascription is modelled as a parser validating the
  ascribed shape (flat object / array of flat objects with string and
  integer members); numbers are modelled as exact integers.
-/

abbrev Str := List Char

def str (s : String) : Str := s.data

/-- Map a fallible function over a list, failing if any element fails. -/
def mapMOpt {α β : Type} (f : α → Option β) : List α → Option (List β)
  | [] => some []
  | a :: rest =>
    match f a, mapMOpt f rest with
    | some b, some bs => some (b :: bs)
    | _, _ => none

-- === Hex helpers (hexToBuffer / bufferToHex of src/lib/auth.ts) ===

/-- Value of a single hexadecimal digit, none for non-digits. -/
def hexDigitToNat (c : Char) : Option Nat :=
  if '0' ≤ c ∧ c ≤ '9' then some (c.toNat - 48)
  else if 'a' ≤ c ∧ c ≤ 'f' then some (c.toNat - 87)
  else if 'A' ≤ c ∧ c ≤ 'F' then some (c.toNat - 55)
  else none

/-- Lower-case hex digit for a value, as produced by Number.toString(16)
on a nibble (total via a mod-16 guard; all call sites pass values < 16). -/
def hexChar (n : Nat) : Char := (str "0123456789abcdef").getD (n % 16) '0'

/-- Whitespace skipped by JavaScript parseInt (StrWhiteSpaceChar, ASCII
fragment). -/
def isJsSpace (c : Char) : Bool :=
  c = ' ' ∨ c = '\t' ∨ c = '\n' ∨ c = '\r' ∨ c = '\x0b' ∨ c = '\x0c'

/-- parseInt(s, 16): skip whitespace, optional sign, optional 0x prefix,
longest hex-digit run; none models NaN (no digits). -/
def parseIntHexStr (s : Str) : Option Int :=
  let s1 := s.dropWhile isJsSpace
  let (sign, s2) : Int × Str :=
    match s1 with
    | '-' :: r => (-1, r)
    | '+' :: r => (1, r)
    | _ => (1, s1)
  let s3 :=
    match s2 with
    | '0' :: 'x' :: r => r
    | '0' :: 'X' :: r => r
    | _ => s2
  let digits := s3.takeWhile (fun c => (hexDigitToNat c).isSome)
  if digits = [] then none
  else some (sign * (digits.foldl (fun a c => a * 16 + ((hexDigitToNat c).getD 0 : Int)) 0))

/-- ToUint8 applied to a parseInt result as done by a Uint8Array element
store: NaN becomes 0, other values are taken modulo 256. -/
def jsToUint8 (v : Option Int) : Nat :=
  match v with
  | none => 0
  | some i => (i % 256).toNat

/-- hexToBuffer: reads the string two characters at a time via
parseInt(substring(i, i+2), 16); a lone trailing character is dropped
(its Uint8Array store lands out of bounds and is ignored). -/
def hexToBuffer : Str → List Nat
  | c1 :: c2 :: rest => jsToUint8 (parseIntHexStr [c1, c2]) :: hexToBuffer rest
  | [_] => []
  | [] => []

/-- bufferToHex: each byte becomes two lower-case hex digits
(toString(16).padStart(2, '0')). -/
def bufferToHex : List Nat → Str
  | [] => []
  | b :: rest => hexChar (b / 16) :: hexChar (b % 16) :: bufferToHex rest

-- === Constant-time comparison (body of verifyPassword) ===

/-- XOR-accumulating comparison over char codes; false immediately on a
length mismatch. -/
def ctEq (a b : Str) : Bool :=
  if a.length = b.length then
    decide (((a.zip b).foldl (fun acc p => acc ||| (p.1.toNat ^^^ p.2.toNat)) 0) = 0)
  else false

-- === Password hasher (hashPassword / verifyPassword) ===

/-- Opaque model of PBKDF2-SHA256 at 100000 iterations: password and salt
bytes to derived bytes. -/
abbrev KdfFn := Str → List Nat → List Nat

structure HashResult where
  hash : Str
  salt : Str
deriving DecidableEq, Repr

/-- hashPassword: salt bytes come from the given hex salt, or from the
16 random bytes (the fresh parameter models crypto.getRandomValues) when
the salt is omitted; the derived key and the salt are returned
hex-encoded. -/
def hashPassword (kdf : KdfFn) (password : Str) (salt : Option Str)
    (fresh : List Nat) : HashResult :=
  let saltBytes :=
    match salt with
    | some s => hexToBuffer s
    | none => fresh
  { hash := bufferToHex (kdf password saltBytes)
    salt := bufferToHex saltBytes }

/-- verifyPassword: recompute the hash with the stored salt and compare in
constant time (the randomness source is unused since a salt is given). -/
def verifyPassword (kdf : KdfFn) (password storedHash salt : Str) : Bool :=
  ctEq (hashPassword kdf password (some salt) []).hash storedHash

-- === Base64 (btoa / atob) ===

def b64Alphabet : Str :=
  str "ABCDEFGHIJKLMNOPQRSTUVWXYZabcdefghijklmnopqrstuvwxyz0123456789+/"

/-- Sextet character (total via a mod-64 guard; all call sites pass
values < 64). -/
def b64Char (n : Nat) : Char := b64Alphabet.getD (n % 64) 'A'

def b64Val (c : Char) : Option Nat := b64Alphabet.findIdx? (· = c)

def encodeB64 : List Nat → Str
  | [] => []
  | [a] => [b64Char (a / 4), b64Char (a % 4 * 16), '=', '=']
  | [a, b] => [b64Char (a / 4), b64Char (a % 4 * 16 + b / 16), b64Char (b % 16 * 4), '=']
  | a :: b :: c :: rest =>
    b64Char (a / 4) :: b64Char (a % 4 * 16 + b / 16) ::
      b64Char (b % 16 * 4 + c / 64) :: b64Char (c % 64) :: encodeB64 rest

/-- Sextet stream of a byte list (proof-side decomposition of encodeB64:
encodeB64 is the sextets mapped through the alphabet plus padding). -/
def toSextets : List Nat → List Nat
  | [] => []
  | [a] => [a / 4, a % 4 * 16]
  | [a, b] => [a / 4, a % 4 * 16 + b / 16, b % 16 * 4]
  | a :: b :: c :: rest =>
    a / 4 :: (a % 4 * 16 + b / 16) :: (b % 16 * 4 + c / 64) :: c % 64 :: toSextets rest

/-- Number of padding characters encodeB64 appends. -/
def padCount (l : List Nat) : Nat := (3 - l.length % 3) % 3

/-- btoa: rejects any character above U+00FF (InvalidCharacterError),
otherwise standard base64 with padding. -/
def btoa (s : Str) : Option Str :=
  if s.all (fun c => c.toNat ≤ 255) then some (encodeB64 (s.map Char.toNat)) else none

/-- ASCII whitespace stripped by the forgiving-base64 decode. -/
def isB64Ws (c : Char) : Bool :=
  c = ' ' ∨ c = '\t' ∨ c = '\n' ∨ c = '\x0c' ∨ c = '\r'

/-- Strip up to two trailing padding characters. -/
def stripPad (t : Str) : Str :=
  match t.reverse with
  | c1 :: c2 :: r =>
    if c1 = '=' then (if c2 = '=' then r.reverse else (c2 :: r).reverse) else t
  | [c1] => if c1 = '=' then [] else t
  | [] => t

def sextetsToBytes : List Nat → List Nat
  | w :: x :: y :: z :: rest =>
    (w * 4 + x / 16) :: (x % 16 * 16 + y / 4) :: (y % 4 * 64 + z) :: sextetsToBytes rest
  | [w, x] => [w * 4 + x / 16]
  | [w, x, y] => [w * 4 + x / 16, x % 16 * 16 + y / 4]
  | _ => []

/-- atob, following the forgiving-base64 decode: strip whitespace, strip
padding when the length is a multiple of four, reject a remainder of one,
reject characters outside the alphabet, decode discarding excess bits. -/
def atob (s : Str) : Option Str :=
  let t0 := s.filter (fun c => ¬ isB64Ws c)
  let t := if t0.length % 4 = 0 then stripPad t0 else t0
  if t.length % 4 = 1 then none
  else
    match mapMOpt b64Val t with
    | none => none
    | some sextets => some ((sextetsToBytes sextets).map Char.ofNat)

-- === JSON codec for the session payload ===

structure SessionPayload where
  email : Str
  name : Str
  exp : Int
deriving DecidableEq, Repr

/-- JSON.stringify escaping of a single string character. -/
def jsonEscapeChar (c : Char) : Str :=
  if c = '"' then ['\\', '"']
  else if c = '\\' then ['\\', '\\']
  else if c = '\x08' then ['\\', 'b']
  else if c = '\t' then ['\\', 't']
  else if c = '\n' then ['\\', 'n']
  else if c = '\x0c' then ['\\', 'f']
  else if c = '\r' then ['\\', 'r']
  else if c.toNat < 32 then
    ['\\', 'u', '0', '0', hexChar (c.toNat / 16), hexChar (c.toNat % 16)]
  else [c]

def jsonEscape : Str → Str
  | [] => []
  | c :: rest => jsonEscapeChar c ++ jsonEscape rest

def jsonQuote (s : Str) : Str := '"' :: jsonEscape s ++ ['"']

/-- Decimal digits of a natural number (structural recursion on a fuel
bound so that the function reduces inside the kernel; the fuel n + 1
always suffices since the digit count of n is at most n + 1). -/
def natToCharsAux : Nat → Nat → Str
  | 0, _ => []
  | fuel + 1, n =>
    if n < 10 then [Char.ofNat (48 + n)]
    else natToCharsAux fuel (n / 10) ++ [Char.ofNat (48 + n % 10)]

def natToChars (n : Nat) : Str := natToCharsAux (n + 1) n

def intToChars (i : Int) : Str :=
  if i < 0 then '-' :: natToChars (-i).toNat else natToChars i.toNat

/-- JSON.stringify of the session payload object literal, members in
insertion order email, name, exp. -/
def stringifyPayload (p : SessionPayload) : Str :=
  '\x7b' :: (jsonQuote (str "email") ++ ':' :: jsonQuote p.email
    ++ ',' :: jsonQuote (str "name") ++ ':' :: jsonQuote p.name
    ++ ',' :: jsonQuote (str "exp") ++ ':' :: intToChars p.exp) ++ ['\x7d']

def isJsonWs (c : Char) : Bool :=
  c = ' ' ∨ c = '\t' ∨ c = '\n' ∨ c = '\r'

def skipWs (s : Str) : Str := s.dropWhile isJsonWs

def jsonUnescape (e : Char) : Option Char :=
  if e = '"' then some '"'
  else if e = '\\' then some '\\'
  else if e = '/' then some '/'
  else if e = 'b' then some '\x08'
  else if e = 'f' then some '\x0c'
  else if e = 'n' then some '\n'
  else if e = 'r' then some '\r'
  else if e = 't' then some '\t'
  else none

/-- JSON string body: everything after the opening quote up to the closing
quote, decoding escapes; raw control characters are rejected. -/
def parseStrContent : Str → Option (Str × Str)
  | [] => none
  | c :: rest =>
    if c = '"' then some ([], rest)
    else if c = '\\' then
      match rest with
      | 'u' :: h1 :: h2 :: h3 :: h4 :: r =>
        match hexDigitToNat h1, hexDigitToNat h2, hexDigitToNat h3, hexDigitToNat h4 with
        | some d1, some d2, some d3, some d4 =>
          (fun pr => (Char.ofNat (((d1 * 16 + d2) * 16 + d3) * 16 + d4) :: pr.1, pr.2)) <$>
            parseStrContent r
        | _, _, _, _ => none
      | e :: r =>
        match jsonUnescape e with
        | some c2 => (fun pr => (c2 :: pr.1, pr.2)) <$> parseStrContent r
        | none => none
      | [] => none
    else if c.toNat < 32 then none
    else (fun pr => (c :: pr.1, pr.2)) <$> parseStrContent rest

def parseDigitsVal (ds : Str) : Nat :=
  ds.foldl (fun a c => a * 10 + (c.toNat - 48)) 0

def parseDigits (s : Str) : Option (Nat × Str) :=
  let ds := s.takeWhile Char.isDigit
  if ds = [] then none else some (parseDigitsVal ds, s.dropWhile Char.isDigit)

def parseIntNum (s : Str) : Option (Int × Str) :=
  match s with
  | c :: r =>
    if c = '-' then (fun pr => (-(pr.1 : Int), pr.2)) <$> parseDigits r
    else (fun pr => ((pr.1 : Int), pr.2)) <$> parseDigits s
  | [] => none

inductive Jval where
  | jstr : Str → Jval
  | jint : Int → Jval
deriving DecidableEq, Repr

def parseJval (s : Str) : Option (Jval × Str) :=
  match s with
  | c :: r =>
    if c = '"' then (fun pr => (Jval.jstr pr.1, pr.2)) <$> parseStrContent r
    else (fun pr => (Jval.jint pr.1, pr.2)) <$> parseIntNum s
  | [] => none

def parseMember (s : Str) : Option ((Str × Jval) × Str) :=
  match skipWs s with
  | '"' :: r =>
    match parseStrContent r with
    | none => none
    | some (key, r1) =>
      match skipWs r1 with
      | ':' :: r2 =>
        match parseJval (skipWs r2) with
        | none => none
        | some (v, r3) => some ((key, v), r3)
      | _ => none
  | _ => none

def parseMembers : Nat → Str → Option (List (Str × Jval) × Str)
  | 0, _ => none
  | fuel + 1, s =>
    match parseMember s with
    | none => none
    | some (kv, rest) =>
      match skipWs rest with
      | ',' :: r2 => (fun pr => (kv :: pr.1, pr.2)) <$> parseMembers fuel r2
      | '\x7d' :: r2 => some ([kv], r2)
      | _ => none

def parseObject (s : Str) : Option (List (Str × Jval) × Str) :=
  match skipWs s with
  | '\x7b' :: r =>
    match skipWs r with
    | '\x7d' :: r2 => some ([], r2)
    | _ => parseMembers (r.length + 1) r
  | _ => none

/-- Property lookup on a parsed object; with duplicate keys JSON.parse
keeps the last occurrence. -/
def jlookup (obj : List (Str × Jval)) (k : Str) : Option Jval :=
  (obj.reverse.find? (fun kv => kv.1 == k)).map (·.2)

/-- JSON.parse at the SessionPayload ascription: a whole-input JSON object
with string members email and name and integer member exp. -/
def parsePayload (s : Str) : Option SessionPayload :=
  match parseObject s with
  | none => none
  | some (obj, rest) =>
    if skipWs rest = [] then
      match jlookup obj (str "email"), jlookup obj (str "name"), jlookup obj (str "exp") with
      | some (.jstr e), some (.jstr n), some (.jint x) => some ⟨e, n, x⟩
      | _, _, _ => none
    else none

-- === Session token codec (createSessionToken / verifySessionToken) ===

/-- Opaque model of HMAC-SHA256: key and message to MAC bytes. -/
abbrev MacFn := Str → Str → List Nat

def sessionDurationMs : Int := 604800000

def createSessionToken (mac : MacFn) (email name secret : Str) (now : Int) :
    Option Str :=
  let payload : SessionPayload := ⟨email, name, now + sessionDurationMs⟩
  match btoa (stringifyPayload payload) with
  | none => none
  | some payloadB64 =>
    some (payloadB64 ++ '.' :: bufferToHex (mac secret payloadB64))

/-- String.prototype.split with a one-character separator. -/
def splitOnChar (sep : Char) : Str → List Str
  | [] => [[]]
  | c :: rest =>
    if c = sep then [] :: splitOnChar sep rest
    else
      match splitOnChar sep rest with
      | s :: ss => (c :: s) :: ss
      | [] => [[c]]

def verifySessionToken (mac : MacFn) (token secret : Str) (now : Int) :
    Option SessionPayload :=
  match splitOnChar '.' token with
  | [payloadB64, signatureHex] =>
    if hexToBuffer signatureHex = mac secret payloadB64 then
      match atob payloadB64 with
      | none => none
      | some payloadJson =>
        match parsePayload payloadJson with
        | none => none
        | some payload => if payload.exp < now then none else some payload
    else none
  | _ => none

-- === Cookie helpers ===

def sessionCookieName : Str := str "pilot_session"

def jsTrimRight (s : Str) : Str := (s.reverse.dropWhile isJsSpace).reverse

/-- String.prototype.trim (ASCII whitespace fragment). -/
def jsTrim (s : Str) : Str := jsTrimRight (s.dropWhile isJsSpace)

def getSessionCookie (cookieHeader : Option Str) : Option Str :=
  match cookieHeader with
  | none => none
  | some h =>
    if h = [] then none  -- the !cookieHeader guard also catches ""
    else
      match ((splitOnChar ';' h).map jsTrim).find?
          (fun c => (sessionCookieName ++ ['=']).isPrefixOf c) with
      | some m => some (m.drop (sessionCookieName.length + 1))
      | none => none

-- === Request gate middleware (onRequest) ===

inductive GateResult where
  | next : GateResult
  | redirectLogin : GateResult
  | nextWithSession : SessionPayload → GateResult
deriving DecidableEq, Repr

def isProtectedPath (pathname : Str) : Bool :=
  (str "/members").isPrefixOf pathname || (str "/api/sites").isPrefixOf pathname

/-- The middleware: next means next() was invoked with no session
attached, nextWithSession means the session was attached to locals and
next() invoked.  The environment lookup chain for SESSION_SECRET is
collapsed into one optional value; the !sessionSecret and !token guards
also catch empty strings. -/
def onRequest (mac : MacFn) (pathname : Str) (sessionSecret : Option Str)
    (cookieHeader : Option Str) (now : Int) : GateResult :=
  if ¬ isProtectedPath pathname then .next
  else
    match sessionSecret with
    | none => .redirectLogin
    | some secret =>
      if secret = [] then .redirectLogin
      else
        match getSessionCookie cookieHeader with
        | none => .redirectLogin
        | some token =>
          if token = [] then .redirectLogin
          else
            match verifySessionToken mac token secret now with
            | none => .redirectLogin
            | some session => .nextWithSession session

-- === Credential store accessor and authenticator ===

structure PilotCredential where
  email : Str
  name : Str
  passwordHash : Str
  salt : Str
deriving DecidableEq, Repr

def credOfObj (obj : List (Str × Jval)) : Option PilotCredential :=
  match jlookup obj (str "email"), jlookup obj (str "name"),
      jlookup obj (str "passwordHash"), jlookup obj (str "salt") with
  | some (.jstr e), some (.jstr n), some (.jstr h), some (.jstr s) =>
    some ⟨e, n, h, s⟩
  | _, _, _, _ => none

def parseObjects : Nat → Str → Option (List (List (Str × Jval)) × Str)
  | 0, _ => none
  | fuel + 1, s =>
    match parseObject s with
    | none => none
    | some (obj, rest) =>
      match skipWs rest with
      | ',' :: r2 => (fun pr => (obj :: pr.1, pr.2)) <$> parseObjects fuel r2
      | ']' :: r2 => some ([obj], r2)
      | _ => none

/-- JSON.parse at the PilotCredential[] ascription: a whole-input JSON
array of credential objects. -/
def parseCredentials (s : Str) : Option (List PilotCredential) :=
  match skipWs s with
  | '[' :: r =>
    match skipWs r with
    | ']' :: r2 => if skipWs r2 = [] then some [] else none
    | _ =>
      match parseObjects (r.length + 1) r with
      | none => none
      | some (objs, rest) =>
        if skipWs rest = [] then mapMOpt credOfObj objs else none
  | _ => none

/-- getCredentials: empty list when the input is absent (or empty, via the
!raw guard) and on parse failure. -/
def getCredentials (raw : Option Str) : List PilotCredential :=
  match raw with
  | none => []
  | some s =>
    if s = [] then []
    else
      match parseCredentials s with
      | some creds => creds
      | none => []

def toLowerStr (s : Str) : Str := s.map Char.toLower

def authenticatePilot (kdf : KdfFn) (email password : Str) (raw : Option Str) :
    Option PilotCredential :=
  let credentials := getCredentials raw
  match credentials.find? (fun c => toLowerStr c.email == toLowerStr email) with
  | none => none
  | some pilot =>
    if verifyPassword kdf password pilot.passwordHash pilot.salt then some pilot
    else none

-- === Airtable updateSite (allowlist and ownership check) ===

def fieldApprovalStatus : Str := str "Approval Status"
def fieldSchedulingWindow : Str := str "Scheduling Window"
def fieldDateFlown : Str := str "Flown Date"
def fieldDataUploaded : Str := str "Data Uploaded"
def fieldHsCompletedDate : Str := str "H&S Completed Date"
def fieldPilotNameText : Str := str "Pilot name text "

def allowedFields : List Str :=
  [fieldApprovalStatus, fieldSchedulingWindow, fieldDateFlown,
   fieldDataUploaded, fieldHsCompletedDate]

/-- Outcome of updateSite up to the point the mutating PATCH request is
issued: the three error constructors are the throws before the PATCH, and
patched carries the body of the PATCH that is sent.  The response mapping
after the PATCH is not modelled (no claim depends on it). -/
inductive UpdateResult (α : Type) where
  | noValidFields : UpdateResult α
  | siteNotFound : UpdateResult α
  | unauthorized : UpdateResult α
  | patched : List (Str × α) → UpdateResult α
deriving DecidableEq, Repr

def lookupField (fields : List (Str × Str)) (k : Str) : Option Str :=
  (fields.find? (fun kv => kv.1 == k)).map (·.2)

/-- updateSite: filter the caller's fields through the allowlist, reject
when nothing remains, then fetch the record (fetchResult models the GET:
none is a non-ok response, some gives the record's fields), compare the
trimmed owner field against the pilot name, and only then PATCH the safe
fields.  Field values are opaque (type α). -/
def updateSite {α : Type} (fields : List (Str × α)) (pilotName : Str)
    (fetchResult : Option (List (Str × Str))) : UpdateResult α :=
  let safeFields := fields.filter (fun kv => allowedFields.contains kv.1)
  if safeFields.isEmpty then .noValidFields
  else
    match fetchResult with
    | none => .siteNotFound
    | some existingFields =>
      let recordPilot := (lookupField existingFields fieldPilotNameText).map jsTrim
      if recordPilot ≠ some pilotName then .unauthorized
      else .patched safeFields

-- === Concrete instances used by witnesses ===

def kdfZero : KdfFn := fun _ _ => List.replicate 32 0

def macZero : MacFn := fun _ _ => [0]

def demoToken : Str :=
  (createSessionToken macZero (str "a") (str "b") (str "k") 0).getD []

def edgeToken : Str :=
  (createSessionToken macZero (str "a") (str "b") (str "k") (-604800000)).getD []

-- === Supporting lemmas ===

theorem bufferToHex_length (l : List Nat) :
    (bufferToHex l).length = 2 * l.length := by
  induction l with
  | nil => rfl
  | cons b rest ih => simp [bufferToHex, ih]; omega

theorem hexDigit_isSome_hexChar (n : Nat) :
    (hexDigitToNat (hexChar n)).isSome = true := by
  have h : ∀ m < 16, (hexDigitToNat ((str "0123456789abcdef").getD m '0')).isSome = true := by
    decide
  exact h (n % 16) (Nat.mod_lt _ (by omega))

theorem mem_bufferToHex_isHexDigit (l : List Nat) (c : Char)
    (hc : c ∈ bufferToHex l) : (hexDigitToNat c).isSome = true := by
  induction l with
  | nil => simp [bufferToHex] at hc
  | cons b rest ih =>
    simp only [bufferToHex, List.mem_cons] at hc
    rcases hc with h | h | h
    · subst h; exact hexDigit_isSome_hexChar _
    · subst h; exact hexDigit_isSome_hexChar _
    · exact ih h

theorem ctEq_self (a : Str) : ctEq a a = true := by
  have hfold : ∀ l : Str,
      ((l.zip l).foldl (fun acc p => acc ||| (p.1.toNat ^^^ p.2.toNat)) 0) = 0 := by
    intro l
    induction l with
    | nil => rfl
    | cons c rest ih => simpa [List.zip_cons_cons, Nat.xor_self] using ih
  simp [ctEq, hfold]

-- hex roundtrip

set_option maxRecDepth 4096 in
theorem hexPair_roundtrip : ∀ b < 256,
    jsToUint8 (parseIntHexStr [hexChar (b / 16), hexChar (b % 16)]) = b := by
  decide

theorem hexToBuffer_bufferToHex (l : List Nat) (h : ∀ b ∈ l, b < 256) :
    hexToBuffer (bufferToHex l) = l := by
  induction l with
  | nil => rfl
  | cons b rest ih =>
    have hb : b < 256 := h b (List.mem_cons_self _ _)
    simp only [bufferToHex, hexToBuffer]
    rw [hexPair_roundtrip b hb, ih fun x hx => h x (List.mem_cons_of_mem _ hx)]

-- splitOnChar

theorem splitOnChar_no_sep (sep : Char) (l : Str) (h : sep ∉ l) :
    splitOnChar sep l = [l] := by
  induction l with
  | nil => rfl
  | cons c rest ih =>
    have hc : ¬ c = sep := fun hh => h (hh ▸ List.mem_cons_self _ _)
    simp only [splitOnChar, if_neg hc, ih fun hm => h (List.mem_cons_of_mem _ hm)]

theorem splitOnChar_append (sep : Char) (a b : Str) (ha : sep ∉ a) :
    splitOnChar sep (a ++ sep :: b) = a :: splitOnChar sep b := by
  induction a with
  | nil => simp [splitOnChar]
  | cons c rest ih =>
    have hc : ¬ c = sep := fun hh => ha (hh ▸ List.mem_cons_self _ _)
    simp only [List.cons_append, splitOnChar, if_neg hc, List.append_eq,
      ih fun hm => ha (List.mem_cons_of_mem _ hm)]

-- base64 alphabet facts

set_option maxRecDepth 8192 in
theorem b64Val_b64Char : ∀ n < 64, b64Val (b64Char n) = some n := by
  decide

set_option maxRecDepth 8192 in
theorem b64Alphabet_getD_props : ∀ m < 64,
    ¬ isB64Ws (b64Alphabet.getD m 'A') = true ∧ b64Alphabet.getD m 'A' ≠ '=' ∧
      b64Alphabet.getD m 'A' ≠ '.' := by
  decide

theorem b64Char_props (n : Nat) :
    ¬ isB64Ws (b64Char n) = true ∧ b64Char n ≠ '=' ∧ b64Char n ≠ '.' :=
  b64Alphabet_getD_props (n % 64) (Nat.mod_lt _ (by omega))

-- encodeB64 decomposition

theorem encodeB64_eq : (l : List Nat) →
    encodeB64 l = (toSextets l).map b64Char ++ List.replicate (padCount l) '='
  | [] => rfl
  | [_] => rfl
  | [_, _] => rfl
  | a :: b :: c :: rest => by
    have ih := encodeB64_eq rest
    have hpad : padCount (a :: b :: c :: rest) = padCount rest := by
      simp [padCount, List.length_cons]
      omega
    simp [encodeB64, toSextets, ih, hpad]

theorem mem_encodeB64 (l : List Nat) (c : Char) (hc : c ∈ encodeB64 l) :
    (∃ n, c = b64Char n) ∨ c = '=' := by
  rw [encodeB64_eq] at hc
  rcases List.mem_append.mp hc with h | h
  · rcases List.mem_map.mp h with ⟨n, _, rfl⟩
    exact Or.inl ⟨n, rfl⟩
  · exact Or.inr (List.eq_of_mem_replicate h)

theorem encodeB64_no_ws (l : List Nat) (c : Char) (hc : c ∈ encodeB64 l) :
    ¬ isB64Ws c = true := by
  rcases mem_encodeB64 l c hc with ⟨n, rfl⟩ | rfl
  · exact (b64Char_props n).1
  · decide

theorem encodeB64_no_dot (l : List Nat) (c : Char) (hc : c ∈ encodeB64 l) :
    c ≠ '.' := by
  rcases mem_encodeB64 l c hc with ⟨n, rfl⟩ | rfl
  · exact (b64Char_props n).2.2
  · decide

theorem toSextets_mod4 : (l : List Nat) → (toSextets l).length % 4 ≠ 1
  | [] => by simp [toSextets]
  | [_] => by simp [toSextets]
  | [_, _] => by simp [toSextets]
  | _ :: _ :: _ :: rest => by
    have ih := toSextets_mod4 rest
    simp only [toSextets, List.length_cons]
    omega

theorem encodeB64_length_mod4 : (l : List Nat) → (encodeB64 l).length % 4 = 0
  | [] => rfl
  | [_] => by simp [encodeB64]
  | [_, _] => by simp [encodeB64]
  | _ :: _ :: _ :: rest => by
    have ih := encodeB64_length_mod4 rest
    simp only [encodeB64, List.length_cons]
    omega

theorem toSextets_lt : (l : List Nat) → (∀ b ∈ l, b < 256) →
    ∀ x ∈ toSextets l, x < 64
  | [], _ => by simp [toSextets]
  | [a], h => by
    have ha := h a (by simp)
    simp only [toSextets, List.mem_cons, List.not_mem_nil, or_false]
    rintro x (rfl | rfl) <;> omega
  | [a, b], h => by
    have ha := h a (by simp)
    have hb := h b (by simp)
    simp only [toSextets, List.mem_cons, List.not_mem_nil, or_false]
    rintro x (rfl | rfl | rfl) <;> omega
  | a :: b :: c :: rest, h => by
    have ha := h a (by simp)
    have hb := h b (by simp)
    have hc := h c (by simp)
    have ih := toSextets_lt rest fun x hx => h x (by simp [hx])
    simp only [toSextets, List.mem_cons]
    rintro x (rfl | rfl | rfl | rfl | hx)
    · omega
    · omega
    · omega
    · omega
    · exact ih x hx

theorem sextetsToBytes_toSextets : (l : List Nat) → (∀ b ∈ l, b < 256) →
    sextetsToBytes (toSextets l) = l
  | [], _ => rfl
  | [a], h => by
    have ha := h a (by simp)
    simp only [toSextets, sextetsToBytes]
    congr 1
    omega
  | [a, b], h => by
    have ha := h a (by simp)
    have hb := h b (by simp)
    simp only [toSextets, sextetsToBytes]
    congr 1
    · omega
    · congr 1
      omega
  | a :: b :: c :: rest, h => by
    have ha := h a (by simp)
    have hb := h b (by simp)
    have hc := h c (by simp)
    have ih := sextetsToBytes_toSextets rest fun x hx => h x (by simp [hx])
    simp only [toSextets, sextetsToBytes, ih]
    congr 1
    · omega
    · congr 1
      · omega
      · congr 1
        omega

-- stripPad

theorem stripPad_no_eq (S : Str) (h : ∀ c ∈ S, c ≠ '=') : stripPad S = S := by
  unfold stripPad
  cases hS : S.reverse with
  | nil => rfl
  | cons d tail =>
    have hd : d ≠ '=' := h d (List.mem_reverse.mp (hS ▸ List.mem_cons_self _ _))
    cases tail with
    | nil => simp [hd]
    | cons d2 tail2 => simp [hd]

theorem stripPad_one (S : Str) (h : ∀ c ∈ S, c ≠ '=') :
    stripPad (S ++ ['=']) = S := by
  have hrev : (S ++ ['=']).reverse = '=' :: S.reverse := by simp
  unfold stripPad
  rw [hrev]
  cases hS : S.reverse with
  | nil =>
    have hS0 : S = [] := by simpa using congrArg List.reverse hS
    simp [hS0]
  | cons d tail =>
    have hd : d ≠ '=' := h d (List.mem_reverse.mp (hS ▸ List.mem_cons_self _ _))
    simp only [if_pos rfl, if_neg hd]
    rw [← hS, List.reverse_reverse]
    simp

theorem stripPad_two (S : Str) : stripPad (S ++ ['=', '=']) = S := by
  have hrev : (S ++ ['=', '=']).reverse = '=' :: '=' :: S.reverse := by simp
  unfold stripPad
  rw [hrev]
  simp

-- atob of encodeB64

theorem mapM_b64Val (xs : List Nat) (h : ∀ x ∈ xs, x < 64) :
    mapMOpt b64Val (xs.map b64Char) = some xs := by
  induction xs with
  | nil => rfl
  | cons a l ih =>
    have ha := b64Val_b64Char a (h a (List.mem_cons_self _ _))
    have ihl := ih fun x hx => h x (List.mem_cons_of_mem _ hx)
    simp [mapMOpt, ha, ihl]

theorem map_ofNat_map_toNat (s : Str) : (s.map Char.toNat).map Char.ofNat = s := by
  simp [List.map_map, Function.comp_def, Char.ofNat_toNat]

theorem atob_encodeB64 (bytes : List Nat) (hb : ∀ b ∈ bytes, b < 256) :
    atob (encodeB64 bytes) = some ((bytes.map Char.ofNat : Str)) := by
  have hfilter : (encodeB64 bytes).filter (fun c => ¬ isB64Ws c) = encodeB64 bytes :=
    List.filter_eq_self.mpr fun c hc => by simpa using encodeB64_no_ws bytes c hc
  have hlen : (encodeB64 bytes).length % 4 = 0 := encodeB64_length_mod4 bytes
  have hSne : ∀ c ∈ (toSextets bytes).map b64Char, c ≠ '=' := by
    intro c hc
    rcases List.mem_map.mp hc with ⟨n, _, rfl⟩
    exact (b64Char_props n).2.1
  have hstrip : stripPad (encodeB64 bytes) = (toSextets bytes).map b64Char := by
    rw [encodeB64_eq]
    have hpc : padCount bytes = 0 ∨ padCount bytes = 1 ∨ padCount bytes = 2 := by
      unfold padCount; omega
    rcases hpc with h0 | h1 | h2
    · rw [h0]
      simp only [List.replicate, List.append_nil]
      exact stripPad_no_eq _ hSne
    · rw [h1]
      simp only [List.replicate]
      exact stripPad_one _ hSne
    · rw [h2]
      simp only [List.replicate]
      exact stripPad_two _
  have hmod : ¬ ((toSextets bytes).map b64Char).length % 4 = 1 := by
    simpa using toSextets_mod4 bytes
  have hmapM : mapMOpt b64Val ((toSextets bytes).map b64Char) = some (toSextets bytes) :=
    mapM_b64Val _ (toSextets_lt bytes hb)
  unfold atob
  simp only [hfilter, hlen, if_pos, hstrip, if_neg hmod, hmapM,
    sextetsToBytes_toSextets bytes hb]

theorem atob_btoa (s t : Str) (h : btoa s = some t) : atob t = some s := by
  unfold btoa at h
  by_cases hall : s.all (fun c => c.toNat ≤ 255)
  · rw [if_pos hall] at h
    have ht : t = encodeB64 (s.map Char.toNat) := (Option.some_injective _ h).symm
    have hb : ∀ b ∈ s.map Char.toNat, b < 256 := by
      intro b hbmem
      rcases List.mem_map.mp hbmem with ⟨c, hc, rfl⟩
      have := List.all_eq_true.mp hall c hc
      simp at this
      omega
    rw [ht, atob_encodeB64 _ hb, map_ofNat_map_toNat]
  · rw [if_neg hall] at h
    cases h

-- JSON string escaping roundtrip

theorem hexDigitToNat_hexChar : ∀ n < 16, hexDigitToNat (hexChar n) = some n := by
  decide

theorem digitChar_facts : ∀ m < 10,
    (Char.ofNat (48 + m)).isDigit = true ∧ (Char.ofNat (48 + m)).toNat = 48 + m := by
  decide

theorem parseStrContent_escape (s : Str) : ∀ rest : Str,
    parseStrContent (jsonEscape s ++ '"' :: rest) = some (s, rest) := by
  induction s with
  | nil =>
    intro rest
    simp only [jsonEscape, List.nil_append]
    rw [parseStrContent.eq_def]
    simp
  | cons c s' ih =>
    intro rest
    rw [jsonEscape, List.append_assoc]
    unfold jsonEscapeChar
    by_cases h1 : c = '"'
    · subst h1
      simp [parseStrContent, jsonUnescape, ih]
    · rw [if_neg h1]
      by_cases h2 : c = '\\'
      · subst h2
        simp [parseStrContent, jsonUnescape, ih]
      · rw [if_neg h2]
        by_cases h3 : c = '\x08'
        · subst h3
          simp [parseStrContent, jsonUnescape, ih]
        · rw [if_neg h3]
          by_cases h4 : c = '\t'
          · subst h4
            simp [parseStrContent, jsonUnescape, ih]
          · rw [if_neg h4]
            by_cases h5 : c = '\n'
            · subst h5
              simp [parseStrContent, jsonUnescape, ih]
            · rw [if_neg h5]
              by_cases h6 : c = '\x0c'
              · subst h6
                simp [parseStrContent, jsonUnescape, ih]
              · rw [if_neg h6]
                by_cases h7 : c = '\r'
                · subst h7
                  simp [parseStrContent, jsonUnescape, ih]
                · rw [if_neg h7]
                  by_cases h8 : c.toNat < 32
                  · rw [if_pos h8]
                    have hd1 : hexDigitToNat (hexChar (c.toNat / 16)) = some (c.toNat / 16) :=
                      hexDigitToNat_hexChar _ (by omega)
                    have hd2 : hexDigitToNat (hexChar (c.toNat % 16)) = some (c.toNat % 16) :=
                      hexDigitToNat_hexChar _ (by omega)
                    have hz : hexDigitToNat '0' = some 0 := rfl
                    have h16a : c.toNat / 16 * 16 + c.toNat % 16 = c.toNat := by omega
                    have h16b : 16 * (c.toNat / 16) + c.toNat % 16 = c.toNat := by omega
                    simp only [List.cons_append, List.nil_append]
                    rw [parseStrContent.eq_def]
                    simp only [hd1, hd2, hz, reduceIte]
                    simp only [Nat.zero_mul, Nat.zero_add, h16a, h16b, Char.ofNat_toNat,
                      ih rest, Option.map_some]
                    rfl
                  · rw [if_neg h8]
                    simp only [List.cons_append, List.nil_append]
                    rw [parseStrContent.eq_def]
                    simp only [if_neg h1, if_neg h2, if_neg h8, ih rest]
                    rfl

-- decimal number roundtrip

theorem natToCharsAux_ne_nil (fuel n : Nat) (h : n < fuel) :
    natToCharsAux fuel n ≠ [] := by
  cases fuel with
  | zero => omega
  | succ f =>
    rw [natToCharsAux]
    split
    · simp
    · simp

theorem natToChars_ne_nil (n : Nat) : natToChars n ≠ [] :=
  natToCharsAux_ne_nil (n + 1) n (by omega)

theorem natToCharsAux_all_digits (fuel : Nat) : ∀ n, n < fuel →
    ∀ c ∈ natToCharsAux fuel n, c.isDigit = true := by
  induction fuel with
  | zero => intro n h; omega
  | succ f ih =>
    intro n hn
    rw [natToCharsAux]
    split
    · next h =>
      intro c hc
      simp only [List.mem_singleton] at hc
      subst hc
      exact (digitChar_facts n h).1
    · next h =>
      intro c hc
      rcases List.mem_append.mp hc with hm | hm
      · exact ih (n / 10) (by omega) c hm
      · simp only [List.mem_singleton] at hm
        subst hm
        exact (digitChar_facts (n % 10) (by omega)).1

theorem natToChars_all_digits (n : Nat) : ∀ c ∈ natToChars n, c.isDigit = true :=
  natToCharsAux_all_digits (n + 1) n (by omega)

theorem natToCharsAux_foldl (fuel : Nat) : ∀ n, n < fuel → ∀ acc : Nat,
    (natToCharsAux fuel n).foldl (fun a c => a * 10 + (c.toNat - 48)) acc =
      acc * 10 ^ (natToCharsAux fuel n).length + n := by
  induction fuel with
  | zero => intro n h; omega
  | succ f ih =>
    intro n hn acc
    rw [natToCharsAux]
    split
    · next h =>
      simp only [List.foldl_cons, List.foldl_nil, List.length_singleton, pow_one,
        (digitChar_facts n h).2]
      omega
    · next h =>
      rw [List.foldl_append, List.length_append, ih (n / 10) (by omega) acc]
      simp only [List.foldl_cons, List.foldl_nil, List.length_singleton,
        (digitChar_facts (n % 10) (by omega)).2]
      rw [pow_add, pow_one, ← Nat.mul_assoc]
      omega

theorem natToChars_foldl (n : Nat) : ∀ acc : Nat,
    (natToChars n).foldl (fun a c => a * 10 + (c.toNat - 48)) acc =
      acc * 10 ^ (natToChars n).length + n :=
  natToCharsAux_foldl (n + 1) n (by omega)

theorem parseDigitsVal_natToChars (n : Nat) : parseDigitsVal (natToChars n) = n := by
  unfold parseDigitsVal
  rw [natToChars_foldl n 0]
  simp

theorem takeWhile_all_append (p : Char → Bool) (ds : Str) (y : Char) (rest : Str)
    (hd : ∀ c ∈ ds, p c = true) (hy : p y = false) :
    (ds ++ y :: rest).takeWhile p = ds ∧ (ds ++ y :: rest).dropWhile p = y :: rest := by
  induction ds with
  | nil => simp [List.takeWhile_cons, List.dropWhile_cons, hy]
  | cons d ds' ih =>
    have hdt : p d = true := hd d (List.mem_cons_self _ _)
    have ih2 := ih fun c hc => hd c (List.mem_cons_of_mem _ hc)
    simp only [List.cons_append, List.takeWhile_cons, List.dropWhile_cons, hdt,
      if_true, ih2.1, ih2.2, and_self]

theorem parseDigits_append (n : Nat) (y : Char) (rest : Str) (hy : y.isDigit = false) :
    parseDigits (natToChars n ++ y :: rest) = some (n, y :: rest) := by
  have h := takeWhile_all_append Char.isDigit (natToChars n) y rest
    (natToChars_all_digits n) hy
  unfold parseDigits
  rw [h.1, h.2, if_neg (natToChars_ne_nil n), parseDigitsVal_natToChars]

theorem parseIntNum_append (i : Int) (y : Char) (rest : Str) (hy : y.isDigit = false) :
    parseIntNum (intToChars i ++ y :: rest) = some (i, y :: rest) := by
  unfold intToChars
  by_cases hneg : i < 0
  · rw [if_pos hneg]
    have hpd := parseDigits_append (-i).toNat y rest hy
    have hcast : -(((-i).toNat : Int)) = i := by omega
    simp only [List.cons_append, parseIntNum, if_pos rfl, hpd, Option.map_some, hcast]
    simp
  · rw [if_neg hneg]
    obtain ⟨d, ds', hds⟩ := List.exists_cons_of_ne_nil (natToChars_ne_nil i.toNat)
    have hddig : d.isDigit = true := by
      apply natToChars_all_digits i.toNat
      rw [hds]
      exact List.mem_cons_self _ _
    have hdm : ¬ d = '-' := by
      intro hdd
      rw [hdd] at hddig
      simp [Char.isDigit] at hddig
    have hpd := parseDigits_append i.toNat y rest hy
    rw [hds] at hpd ⊢
    simp only [List.cons_append, parseIntNum, if_neg hdm]
    rw [← List.cons_append, hpd]
    have hcast : ((i.toNat : Int)) = i := by omega
    simp only [Option.map_some, hcast]

-- object member parsing

theorem skipWs_cons_not (c : Char) (l : Str) (h : isJsonWs c = false) :
    skipWs (c :: l) = c :: l := by
  simp [skipWs, h]

theorem digit_not_special (c : Char) (h : c.isDigit = true) :
    ¬ c = '"' ∧ isJsonWs c = false := by
  refine ⟨?_, ?_⟩
  · rintro rfl
    exact absurd h (by decide)
  · simp only [isJsonWs, decide_eq_false_iff_not]
    rintro (rfl | rfl | rfl | rfl) <;> exact absurd h (by decide)

theorem intToChars_ne_nil (i : Int) : intToChars i ≠ [] := by
  unfold intToChars
  split
  · simp
  · exact natToChars_ne_nil _

theorem intToChars_head (i : Int) :
    ∃ d ds, intToChars i = d :: ds ∧ ¬ d = '"' ∧ isJsonWs d = false := by
  unfold intToChars
  split
  · exact ⟨'-', natToChars (-i).toNat, rfl, by decide, by decide⟩
  · obtain ⟨d, ds', hds⟩ := List.exists_cons_of_ne_nil (natToChars_ne_nil i.toNat)
    have hdig : d.isDigit = true := natToChars_all_digits i.toNat d (by
      rw [hds]; exact List.mem_cons_self _ _)
    exact ⟨d, ds', hds, (digit_not_special d hdig).1, (digit_not_special d hdig).2⟩

theorem parseJval_int (i : Int) (y : Char) (rest : Str) (hy : y.isDigit = false) :
    parseJval (intToChars i ++ y :: rest) = some (Jval.jint i, y :: rest) := by
  obtain ⟨d, ds', hds, hdq, _⟩ := intToChars_head i
  have hpn := parseIntNum_append i y rest hy
  rw [hds] at hpn ⊢
  simp only [List.cons_append, parseJval, if_neg hdq]
  rw [← List.cons_append, hpn]
  rfl

theorem parseJval_skipWs_int (i : Int) (y : Char) (rest : Str) (hy : y.isDigit = false) :
    parseJval (skipWs (intToChars i ++ y :: rest)) = some (Jval.jint i, y :: rest) := by
  obtain ⟨d, ds', hds, _, hdw⟩ := intToChars_head i
  rw [hds, List.cons_append, skipWs_cons_not _ _ hdw, ← List.cons_append, ← hds]
  exact parseJval_int i y rest hy

theorem parseJval_skipWs_str (w rest : Str) :
    parseJval (skipWs ('"' :: (jsonEscape w ++ '"' :: rest))) =
      some (Jval.jstr w, rest) := by
  rw [skipWs_cons_not _ _ (by decide)]
  simp only [parseJval, if_pos rfl, parseStrContent_escape]
  rfl

theorem parseMember_quote (k w rest : Str) :
    parseMember ('"' :: (jsonEscape k ++ '"' :: ':' :: '"' :: (jsonEscape w ++ '"' :: rest)))
      = some ((k, Jval.jstr w), rest) := by
  unfold parseMember
  rw [skipWs_cons_not _ _ (by decide)]
  simp only [parseStrContent_escape, skipWs_cons_not _ _ (show isJsonWs ':' = false by decide),
    parseJval_skipWs_str]

theorem parseMember_int (k : Str) (i : Int) (y : Char) (rest : Str) (hy : y.isDigit = false) :
    parseMember ('"' :: (jsonEscape k ++ '"' :: ':' :: (intToChars i ++ y :: rest)))
      = some ((k, Jval.jint i), y :: rest) := by
  unfold parseMember
  rw [skipWs_cons_not _ _ (by decide)]
  simp only [parseStrContent_escape, skipWs_cons_not _ _ (show isJsonWs ':' = false by decide),
    parseJval_skipWs_int i y rest hy]

-- parseMembers stepping

theorem parseMembers_succ_comma (fuel : Nat) (s : Str) (kv : Str × Jval) (r2 : Str)
    (h : parseMember s = some (kv, ',' :: r2)) :
    parseMembers (fuel + 1) s = (fun pr => (kv :: pr.1, pr.2)) <$> parseMembers fuel r2 := by
  simp only [parseMembers, h, skipWs_cons_not ',' r2 (by decide)]

theorem parseMembers_succ_close (fuel : Nat) (s : Str) (kv : Str × Jval) (r2 : Str)
    (h : parseMember s = some (kv, '\x7d' :: r2)) :
    parseMembers (fuel + 1) s = some ([kv], r2) := by
  simp only [parseMembers, h, skipWs_cons_not '\x7d' r2 (by decide)]

theorem parseMembers_payload (f : Nat) (e n : Str) (x : Int) (rest : Str) :
    parseMembers (f + 3)
      ('"' :: (jsonEscape (str "email") ++ '"' :: ':' :: '"' :: (jsonEscape e ++ '"' ::
      ',' :: '"' :: (jsonEscape (str "name") ++ '"' :: ':' :: '"' :: (jsonEscape n ++ '"' ::
      ',' :: '"' :: (jsonEscape (str "exp") ++ '"' :: ':' :: (intToChars x ++ '\x7d' :: rest)))))))
      = some ([(str "email", Jval.jstr e), (str "name", Jval.jstr n), (str "exp", Jval.jint x)], rest) := by
  rw [show f + 3 = ((f + 1) + 1) + 1 by omega]
  rw [parseMembers_succ_comma ((f + 1) + 1) _ _ _ (parseMember_quote (str "email") e _)]
  rw [parseMembers_succ_comma (f + 1) _ _ _ (parseMember_quote (str "name") n _)]
  rw [parseMembers_succ_close f _ _ _ (parseMember_int (str "exp") x '\x7d' rest (by decide))]
  rfl

theorem parseObject_payload (e n : Str) (x : Int) :
    parseObject ('\x7b' ::
      ('"' :: (jsonEscape (str "email") ++ '"' :: ':' :: '"' :: (jsonEscape e ++ '"' ::
      ',' :: '"' :: (jsonEscape (str "name") ++ '"' :: ':' :: '"' :: (jsonEscape n ++ '"' ::
      ',' :: '"' :: (jsonEscape (str "exp") ++ '"' :: ':' :: (intToChars x ++ ['\x7d']))))))))
      = some ([(str "email", Jval.jstr e), (str "name", Jval.jstr n), (str "exp", Jval.jint x)], []) := by
  have h2 : skipWs ('"' :: (jsonEscape (str "email") ++ '"' :: ':' :: '"' :: (jsonEscape e ++ '"' ::
      ',' :: '"' :: (jsonEscape (str "name") ++ '"' :: ':' :: '"' :: (jsonEscape n ++ '"' ::
      ',' :: '"' :: (jsonEscape (str "exp") ++ '"' :: ':' :: (intToChars x ++ ['\x7d']))))))) = ('"' :: (jsonEscape (str "email") ++ '"' :: ':' :: '"' :: (jsonEscape e ++ '"' ::
      ',' :: '"' :: (jsonEscape (str "name") ++ '"' :: ':' :: '"' :: (jsonEscape n ++ '"' ::
      ',' :: '"' :: (jsonEscape (str "exp") ++ '"' :: ':' :: (intToChars x ++ ['\x7d']))))))) := skipWs_cons_not _ _ (by decide)
  have hge : 2 ≤ ('"' :: (jsonEscape (str "email") ++ '"' :: ':' :: '"' :: (jsonEscape e ++ '"' ::
      ',' :: '"' :: (jsonEscape (str "name") ++ '"' :: ':' :: '"' :: (jsonEscape n ++ '"' ::
      ',' :: '"' :: (jsonEscape (str "exp") ++ '"' :: ':' :: (intToChars x ++ ['\x7d']))))))).length := by
    simp [List.length_cons, List.length_append]
    omega
  have hlen : ('"' :: (jsonEscape (str "email") ++ '"' :: ':' :: '"' :: (jsonEscape e ++ '"' ::
      ',' :: '"' :: (jsonEscape (str "name") ++ '"' :: ':' :: '"' :: (jsonEscape n ++ '"' ::
      ',' :: '"' :: (jsonEscape (str "exp") ++ '"' :: ':' :: (intToChars x ++ ['\x7d']))))))).length + 1 = (('"' :: (jsonEscape (str "email") ++ '"' :: ':' :: '"' :: (jsonEscape e ++ '"' ::
      ',' :: '"' :: (jsonEscape (str "name") ++ '"' :: ':' :: '"' :: (jsonEscape n ++ '"' ::
      ',' :: '"' :: (jsonEscape (str "exp") ++ '"' :: ':' :: (intToChars x ++ ['\x7d']))))))).length - 2) + 3 := by omega
  have hmem := parseMembers_payload ((('"' :: (jsonEscape (str "email") ++ '"' :: ':' :: '"' :: (jsonEscape e ++ '"' ::
      ',' :: '"' :: (jsonEscape (str "name") ++ '"' :: ':' :: '"' :: (jsonEscape n ++ '"' ::
      ',' :: '"' :: (jsonEscape (str "exp") ++ '"' :: ':' :: (intToChars x ++ ['\x7d']))))))).length - 2)) e n x []
  unfold parseObject
  rw [skipWs_cons_not _ _ (by decide)]
  simp only [h2, hlen]
  exact hmem

theorem parsePayload_stringify (p : SessionPayload) :
    parsePayload (stringifyPayload p) = some p := by
  obtain ⟨e, n, x⟩ := p
  have hbody : stringifyPayload ⟨e, n, x⟩ =
      '\x7b' ::
      ('"' :: (jsonEscape (str "email") ++ '"' :: ':' :: '"' :: (jsonEscape e ++ '"' ::
      ',' :: '"' :: (jsonEscape (str "name") ++ '"' :: ':' :: '"' :: (jsonEscape n ++ '"' ::
      ',' :: '"' :: (jsonEscape (str "exp") ++ '"' :: ':' :: (intToChars x ++ ['\x7d']))))))) := by
    simp [stringifyPayload, jsonQuote, List.append_assoc]
  rw [hbody]
  unfold parsePayload
  rw [parseObject_payload]
  rfl

-- session token roundtrip

theorem mem_bufferToHex_ne_dot (l : List Nat) (c : Char) (hc : c ∈ bufferToHex l) :
    c ≠ '.' := by
  intro hdot
  subst hdot
  exact absurd (mem_bufferToHex_isHexDigit l '.' hc) (by decide)

theorem btoa_no_dot (s t : Str) (h : btoa s = some t) : '.' ∉ t := by
  unfold btoa at h
  split at h
  · cases h
    intro hd
    exact encodeB64_no_dot _ '.' hd rfl
  · cases h

theorem verify_create (mac : MacFn) (hmac : ∀ k m b, b ∈ mac k m → b < 256)
    (email name secret : Str) (T0 now : Int) (t : Str)
    (hc : createSessionToken mac email name secret T0 = some t)
    (hnow : now < T0 + sessionDurationMs) :
    verifySessionToken mac t secret now =
      some ⟨email, name, T0 + sessionDurationMs⟩ := by
  unfold createSessionToken at hc
  simp only [] at hc
  cases hb : btoa (stringifyPayload ⟨email, name, T0 + sessionDurationMs⟩) with
  | none => rw [hb] at hc; cases hc
  | some payloadB64 =>
    rw [hb] at hc
    cases hc
    have hnd1 : '.' ∉ payloadB64 := btoa_no_dot _ _ hb
    have hnd2 : '.' ∉ bufferToHex (mac secret payloadB64) := fun hd =>
      mem_bufferToHex_ne_dot _ _ hd rfl
    have hsplit : splitOnChar '.' (payloadB64 ++ '.' :: bufferToHex (mac secret payloadB64))
        = [payloadB64, bufferToHex (mac secret payloadB64)] := by
      rw [splitOnChar_append _ _ _ hnd1, splitOnChar_no_sep _ _ hnd2]
    unfold verifySessionToken
    rw [hsplit]
    simp only []
    rw [hexToBuffer_bufferToHex _ (fun b hb2 => hmac _ _ b hb2), if_pos rfl]
    rw [atob_btoa _ _ hb]
    simp only [parsePayload_stringify]
    rw [if_neg (by omega : ¬ (T0 + sessionDurationMs < now))]

-- trim

theorem dropWhile_append_all (p : Char → Bool) (a b : Str)
    (ha : ∀ c ∈ a, p c = true) : (a ++ b).dropWhile p = b.dropWhile p := by
  induction a with
  | nil => rfl
  | cons c a' ih =>
    simp only [List.cons_append, List.dropWhile_cons, ha c (List.mem_cons_self _ _),
      if_true]
    exact ih fun d hd => ha d (List.mem_cons_of_mem _ hd)

theorem jsTrimRight_append_ws (x t : Str) (ht : ∀ c ∈ t, isJsSpace c = true) :
    jsTrimRight (x ++ t) = jsTrimRight x := by
  unfold jsTrimRight
  rw [List.reverse_append, dropWhile_append_all _ _ _ (fun c hc => ht c (List.mem_reverse.mp hc))]

theorem dropWhile_append_or (p : Char → Bool) (s t : Str) :
    ((s ++ t).dropWhile p = s.dropWhile p ++ t ∧ s.dropWhile p ≠ []) ∨
      (s.dropWhile p = [] ∧ (s ++ t).dropWhile p = t.dropWhile p) := by
  induction s with
  | nil => exact Or.inr ⟨rfl, rfl⟩
  | cons c s' ih =>
    by_cases hc : p c = true
    · simp only [List.cons_append, List.dropWhile_cons, hc, if_true]
      exact ih
    · have hc2 : p c = false := by
        cases hpc : p c
        · rfl
        · exact absurd hpc hc
      simp only [List.cons_append, List.dropWhile_cons, hc2]
      exact Or.inl ⟨by simp, by simp⟩

theorem jsTrim_append_ws (s t : Str) (ht : ∀ c ∈ t, isJsSpace c = true) :
    jsTrim (s ++ t) = jsTrim s := by
  unfold jsTrim
  rcases dropWhile_append_or isJsSpace s t with ⟨heq, _⟩ | ⟨heq, heq2⟩
  · rw [heq, jsTrimRight_append_ws _ _ ht]
  · rw [heq, heq2]
    have htall : t.dropWhile isJsSpace = [] := by
      rw [List.dropWhile_eq_nil_iff]
      intro c hc
      exact ht c hc
    rw [htall]

theorem jsTrim_eq_self_append_ws (name t : Str) (hn : jsTrim name = name)
    (ht : ∀ c ∈ t, isJsSpace c = true) : jsTrim (name ++ t) = name := by
  rw [jsTrim_append_ws _ _ ht, hn]

-- === Claim theorems ===

/-- C5: password hashing is deterministic in password and salt (its result
does not depend on the randomness source when a salt is supplied), the
derived key is a 256-bit hex-encoded value (64 hex digits for a 32-byte
KDF output), and verifyPassword accepts the hash it produced with the same
password and salt. -/
theorem hashPassword_deterministic_and_verifies (kdf : KdfFn)
    (hlen : ∀ pw sb, (kdf pw sb).length = 32) (p s : Str)
    (fresh1 fresh2 : List Nat) :
    hashPassword kdf p (some s) fresh1 = hashPassword kdf p (some s) fresh2
    ∧ (hashPassword kdf p (some s) fresh1).hash.length = 64
    ∧ (∀ c ∈ (hashPassword kdf p (some s) fresh1).hash, (hexDigitToNat c).isSome = true)
    ∧ verifyPassword kdf p (hashPassword kdf p (some s) fresh1).hash s = true := by
  refine ⟨rfl, ?_, ?_, ?_⟩
  · show (bufferToHex (kdf p (hexToBuffer s))).length = 64
    rw [bufferToHex_length, hlen]
  · intro c hc
    exact mem_bufferToHex_isHexDigit _ c hc
  · exact ctEq_self _

/-- Witness for C5 at a concrete all-zero KDF, password and salt. -/
theorem hashPassword_deterministic_and_verifies_witness :
    verifyPassword kdfZero (str "pw")
      (hashPassword kdfZero (str "pw") (some (str "ab")) []).hash (str "ab") = true
    ∧ (hashPassword kdfZero (str "pw") (some (str "ab")) []).hash.length = 64 :=
  ⟨(hashPassword_deterministic_and_verifies kdfZero (fun _ _ => by simp [kdfZero])
      (str "pw") (str "ab") [] []).2.2.2,
   (hashPassword_deterministic_and_verifies kdfZero (fun _ _ => by simp [kdfZero])
      (str "pw") (str "ab") [] []).2.1⟩

/-- C2: a token issued by createSessionToken at time T0 verifies, at any
time strictly before its expiry, to a session with the identical email and
name and with exp equal to T0 plus seven days in milliseconds. -/
theorem sessionToken_issue_verify_roundtrip (mac : MacFn)
    (hmac : ∀ k m b, b ∈ mac k m → b < 256)
    (email name secret : Str) (T0 now : Int) (t : Str)
    (hissued : createSessionToken mac email name secret T0 = some t)
    (hbefore : now < T0 + 7 * 24 * 60 * 60 * 1000) :
    verifySessionToken mac t secret now =
      some ⟨email, name, T0 + 7 * 24 * 60 * 60 * 1000⟩ := by
  have h7 : (7 * 24 * 60 * 60 * 1000 : Int) = sessionDurationMs := by decide
  rw [h7] at hbefore ⊢
  exact verify_create mac hmac email name secret T0 now t hissued hbefore

/-- Witness for C2 at a concrete MAC, identity, secret and times. -/
theorem sessionToken_issue_verify_roundtrip_witness :
    verifySessionToken macZero demoToken (str "k") 0 =
      some ⟨str "a", str "b", 0 + 7 * 24 * 60 * 60 * 1000⟩ :=
  sessionToken_issue_verify_roundtrip macZero
    (by intro k m b hb; simp [macZero] at hb; omega)
    (str "a") (str "b") (str "k") 0 0 demoToken (by decide) (by decide)

/-- C3 counterexample: edgeToken is issued by createSessionToken (hence
carries a correct signature) with exp equal to 0; verified at current time
0 — exp exactly equal to now — it is accepted, not rejected, because the
code's expiry test is payload.exp < Date.now(), a strict comparison. -/
theorem verify_accepts_exp_equal_now :
    createSessionToken macZero (str "a") (str "b") (str "k") (-604800000) =
      some edgeToken
    ∧ verifySessionToken macZero edgeToken (str "k") 0 =
        some ⟨str "a", str "b", 0⟩ := by
  constructor
  · decide
  · decide

/-- C3 amended: verifySessionToken rejects a token whenever the decoded
payload's exp is strictly before the current time; whenever it returns a
session, that session's exp is at or after the current time (a token whose
exp equals the current time is still accepted). -/
theorem verify_rejects_exp_before_now (mac : MacFn) (token secret : Str)
    (now : Int) (p : SessionPayload)
    (h : verifySessionToken mac token secret now = some p) :
    ¬ p.exp < now := by
  unfold verifySessionToken at h
  split at h
  · split at h
    · split at h
      · cases h
      · split at h
        · cases h
        · split at h
          · cases h
          · cases h
            assumption
    · cases h
  · cases h

/-- Witness for the amended C3 at a concrete accepted token. -/
theorem verify_rejects_exp_before_now_witness :
    ¬ (⟨str "a", str "b", (604800000 : Int)⟩ : SessionPayload).exp < 0 :=
  verify_rejects_exp_before_now macZero demoToken (str "k") 0 _ (by decide)

/-- C7: verifySessionToken is total (it always returns some session or
none — in this embedding it is a total function into Option) and fails
closed: a token that does not split on the dot into exactly two parts is
rejected, a payload part that is not valid base64 is rejected, and a
decoded payload that is not valid JSON for the session shape is rejected,
in every case by returning none rather than by raising. -/
theorem verifySessionToken_fail_closed (mac : MacFn) (token secret : Str)
    (now : Int) :
    (verifySessionToken mac token secret now = none ∨
      ∃ p, verifySessionToken mac token secret now = some p)
    ∧ ((splitOnChar '.' token).length ≠ 2 →
        verifySessionToken mac token secret now = none)
    ∧ (∀ payloadB64 sigHex, splitOnChar '.' token = [payloadB64, sigHex] →
        atob payloadB64 = none → verifySessionToken mac token secret now = none)
    ∧ (∀ payloadB64 sigHex s, splitOnChar '.' token = [payloadB64, sigHex] →
        atob payloadB64 = some s → parsePayload s = none →
        verifySessionToken mac token secret now = none) := by
  refine ⟨?_, ?_, ?_, ?_⟩
  · cases h : verifySessionToken mac token secret now with
    | none => exact Or.inl rfl
    | some p => exact Or.inr ⟨p, rfl⟩
  · intro hlen
    unfold verifySessionToken
    split
    · next a b heq => exact absurd (by rw [heq]; rfl) hlen
    · rfl
  · intro payloadB64 sigHex hsp hatob
    unfold verifySessionToken
    rw [hsp]
    simp only [hatob]
    split
    · rfl
    · rfl
  · intro payloadB64 sigHex s hsp hatob hparse
    unfold verifySessionToken
    rw [hsp]
    simp only [hatob, hparse]
    split
    · rfl
    · rfl

/-- Witness for C7: a token with no dot, a token whose payload half is not
base64, and a signed token whose payload decodes to invalid JSON are all
rejected. -/
theorem verifySessionToken_fail_closed_witness :
    verifySessionToken macZero (str "x") (str "k") 0 = none
    ∧ verifySessionToken macZero (str "!!.00") (str "k") 0 = none
    ∧ verifySessionToken macZero (str "YWI=.00") (str "k") 0 = none :=
  ⟨(verifySessionToken_fail_closed macZero (str "x") (str "k") 0).2.1 (by decide),
   (verifySessionToken_fail_closed macZero (str "!!.00") (str "k") 0).2.2.1
     (str "!!") (str "00") (by decide) (by decide),
   (verifySessionToken_fail_closed macZero (str "YWI=.00") (str "k") 0).2.2.2
     (str "YWI=") (str "00") (str "ab") (by decide) (by decide) (by decide)⟩

/-- C1: the request gate passes unprotected paths through with no session
lookup and no session attached; on protected paths it redirects to the
login surface when the secret is absent (or empty), when the cookie header
yields no token (or an empty one), or when verification fails, attaching
no session; only on successful verification does it attach the decoded
session and invoke the downstream handler. -/
theorem onRequest_gate_spec (mac : MacFn) (pathname : Str)
    (sessionSecret : Option Str) (cookieHeader : Option Str) (now : Int) :
    (isProtectedPath pathname = false →
      onRequest mac pathname sessionSecret cookieHeader now = .next)
    ∧ (isProtectedPath pathname = true →
        (sessionSecret = none ∨ sessionSecret = some []) →
        onRequest mac pathname sessionSecret cookieHeader now = .redirectLogin)
    ∧ (∀ secret, isProtectedPath pathname = true → sessionSecret = some secret →
        secret ≠ [] →
        (getSessionCookie cookieHeader = none ∨ getSessionCookie cookieHeader = some []) →
        onRequest mac pathname sessionSecret cookieHeader now = .redirectLogin)
    ∧ (∀ secret token, isProtectedPath pathname = true → sessionSecret = some secret →
        secret ≠ [] → getSessionCookie cookieHeader = some token → token ≠ [] →
        verifySessionToken mac token secret now = none →
        onRequest mac pathname sessionSecret cookieHeader now = .redirectLogin)
    ∧ (∀ secret token session, isProtectedPath pathname = true →
        sessionSecret = some secret → secret ≠ [] →
        getSessionCookie cookieHeader = some token → token ≠ [] →
        verifySessionToken mac token secret now = some session →
        onRequest mac pathname sessionSecret cookieHeader now =
          .nextWithSession session) := by
  refine ⟨?_, ?_, ?_, ?_, ?_⟩
  · intro hp
    unfold onRequest
    rw [if_pos (by simp [hp])]
  · intro hp hsec
    unfold onRequest
    rw [if_neg (by simp [hp])]
    rcases hsec with rfl | rfl
    · rfl
    · simp
  · intro secret hp hsec hne hcook
    unfold onRequest
    rw [if_neg (by simp [hp]), hsec]
    simp only [if_neg hne]
    rcases hcook with h | h
    · rw [h]
    · rw [h]
      simp
  · intro secret token hp hsec hne hcook htne hver
    unfold onRequest
    rw [if_neg (by simp [hp]), hsec]
    simp only [if_neg hne]
    rw [hcook]
    simp only [if_neg htne, hver]
  · intro secret token session hp hsec hne hcook htne hver
    unfold onRequest
    rw [if_neg (by simp [hp]), hsec]
    simp only [if_neg hne]
    rw [hcook]
    simp only [if_neg htne, hver]

/-- Witness for C1: an unprotected path passes through, a protected path
with no secret redirects, a protected path with no cookie redirects, and a
protected path with a valid session cookie reaches the handler with the
session attached. -/
theorem onRequest_gate_spec_witness :
    onRequest macZero (str "/about") (some (str "k")) none 0 = .next
    ∧ onRequest macZero (str "/members/x") none none 0 = .redirectLogin
    ∧ onRequest macZero (str "/members/x") (some (str "k")) none 0 = .redirectLogin
    ∧ onRequest macZero (str "/members/x") (some (str "k"))
        (some (str "pilot_session=" ++ demoToken)) 0 =
        .nextWithSession ⟨str "a", str "b", 604800000⟩ :=
  ⟨(onRequest_gate_spec macZero (str "/about") (some (str "k")) none 0).1 (by decide),
   (onRequest_gate_spec macZero (str "/members/x") none none 0).2.1 (by decide)
     (Or.inl rfl),
   (onRequest_gate_spec macZero (str "/members/x") (some (str "k")) none 0).2.2.1
     (str "k") (by decide) rfl (by decide) (Or.inl (by decide)),
   (onRequest_gate_spec macZero (str "/members/x") (some (str "k"))
       (some (str "pilot_session=" ++ demoToken)) 0).2.2.2.2
     (str "k") demoToken ⟨str "a", str "b", 604800000⟩ (by decide) rfl (by decide)
     (by decide) (by decide) (by decide)⟩

/-- C9: getSessionCookie returns none exactly when the header is absent or
no semicolon-separated, trimmed entry starts with the fixed cookie name
followed by the equals sign; when such an entry exists, it returns the
text after the first matching entry's name and equals sign. -/
theorem getSessionCookie_spec (h : Str) :
    getSessionCookie none = none
    ∧ (getSessionCookie (some h) = none ↔
        ∀ e ∈ (splitOnChar ';' h).map jsTrim,
          ¬ (sessionCookieName ++ ['=']).isPrefixOf e = true)
    ∧ (∀ m, ((splitOnChar ';' h).map jsTrim).find?
          (fun c => (sessionCookieName ++ ['=']).isPrefixOf c) = some m →
        getSessionCookie (some h) = some (m.drop (sessionCookieName.length + 1))) := by
  refine ⟨rfl, ?_, ?_⟩
  · by_cases hnil : h = []
    · subst hnil
      simp only [getSessionCookie, if_pos rfl]
      constructor
      · intro _ e he
        simp only [splitOnChar, List.map_cons, List.map_nil, List.mem_singleton] at he
        subst he
        decide
      · intro _
        rfl
    · simp only [getSessionCookie, if_neg hnil]
      cases hf : ((splitOnChar ';' h).map jsTrim).find?
          (fun c => (sessionCookieName ++ ['=']).isPrefixOf c) with
      | none =>
        simp only []
        constructor
        · intro _ e he
          have := List.find?_eq_none.mp hf e he
          simpa using this
        · intro _
          trivial
      | some m =>
        simp only []
        constructor
        · intro hcontra
          cases hcontra
        · intro hall
          have hm := List.find?_some hf
          have hmem := List.mem_of_find?_eq_some hf
          exact absurd hm (by simpa using hall m hmem)
  · intro m hf
    by_cases hnil : h = []
    · subst hnil
      have hmem := List.mem_of_find?_eq_some hf
      have hsome := List.find?_some hf
      rw [show (splitOnChar ';' ([] : Str)).map jsTrim = [([] : Str)] from rfl] at hmem
      simp only [List.mem_singleton] at hmem
      subst hmem
      exact absurd hsome (by decide)
    · simp only [getSessionCookie, if_neg hnil, hf]

/-- Witness for C9 at a concrete multi-cookie header. -/
theorem getSessionCookie_spec_witness :
    getSessionCookie (some (str "foo=1; pilot_session=abc; bar=2")) =
      some (str "abc") :=
  (getSessionCookie_spec (str "foo=1; pilot_session=abc; bar=2")).2.2
    (str "pilot_session=abc") (by decide)

/-- C8: the credential loader returns the empty list when the input is
absent (or empty, which the falsy guard also treats as absent), returns
the parsed records when the input parses as a JSON array of credential
records, and returns the empty list instead of raising on parse failure —
its result is a well-formed credential list in every case. -/
theorem getCredentials_spec (s : Str) (l : List PilotCredential) :
    getCredentials none = []
    ∧ getCredentials (some []) = []
    ∧ (parseCredentials s = some l → getCredentials (some s) = l)
    ∧ (parseCredentials s = none → getCredentials (some s) = []) := by
  refine ⟨rfl, rfl, ?_, ?_⟩
  · intro hp
    by_cases hnil : s = []
    · subst hnil
      cases hp
    · simp only [getCredentials, if_neg hnil, hp]
  · intro hp
    by_cases hnil : s = []
    · subst hnil
      rfl
    · simp only [getCredentials, if_neg hnil, hp]

/-- Witness for C8 at a concrete credential list and a malformed input. -/
theorem getCredentials_spec_witness :
    getCredentials (some (str "[\x7b\"email\":\"a@x.com\",\"name\":\"Jo\",\"passwordHash\":\"00\",\"salt\":\"01\"\x7d]")) =
      [⟨str "a@x.com", str "Jo", str "00", str "01"⟩]
    ∧ getCredentials (some (str "oops")) = [] :=
  ⟨(getCredentials_spec
      (str "[\x7b\"email\":\"a@x.com\",\"name\":\"Jo\",\"passwordHash\":\"00\",\"salt\":\"01\"\x7d]")
      [⟨str "a@x.com", str "Jo", str "00", str "01"⟩]).2.2.1 (by decide),
   (getCredentials_spec (str "oops") []).2.2.2 (by decide)⟩

/-- C6: the authenticator selects the first credential whose email matches
case-insensitively; when none matches it returns none without any hash
computation (the result does not depend on the key-derivation function at
all); when one matches it returns that credential exactly when the
password verifies against the stored hash and salt, and none otherwise. -/
theorem authenticatePilot_spec (kdf : KdfFn) (email password : Str)
    (raw : Option Str) :
    ((getCredentials raw).find? (fun c => toLowerStr c.email == toLowerStr email) = none →
      ∀ kdf2 : KdfFn, authenticatePilot kdf2 email password raw = none)
    ∧ (∀ pilot,
        (getCredentials raw).find? (fun c => toLowerStr c.email == toLowerStr email) =
          some pilot →
        toLowerStr pilot.email = toLowerStr email
        ∧ authenticatePilot kdf email password raw =
            (if verifyPassword kdf password pilot.passwordHash pilot.salt then some pilot
             else none)) := by
  constructor
  · intro hf kdf2
    unfold authenticatePilot
    simp only []
    rw [hf]
  · intro pilot hf
    refine ⟨by simpa using List.find?_some hf, ?_⟩
    unfold authenticatePilot
    simp only []
    rw [hf]

set_option maxRecDepth 20000 in
/-- Witness for C6: a concrete configuration where a case-insensitive
email match succeeds and the stored hash matches the derived key. -/
theorem authenticatePilot_spec_witness :
    authenticatePilot kdfZero (str "A@X.com") (str "pw")
      (some (str "[\x7b\"email\":\"a@x.com\",\"name\":\"Jo\",\"passwordHash\":\"0000000000000000000000000000000000000000000000000000000000000000\",\"salt\":\"ab\"\x7d]")) =
      some ⟨str "a@x.com", str "Jo",
        str "0000000000000000000000000000000000000000000000000000000000000000", str "ab"⟩ := by
  have h := (authenticatePilot_spec kdfZero (str "A@X.com") (str "pw")
      (some (str "[\x7b\"email\":\"a@x.com\",\"name\":\"Jo\",\"passwordHash\":\"0000000000000000000000000000000000000000000000000000000000000000\",\"salt\":\"ab\"\x7d]"))).2
      ⟨str "a@x.com", str "Jo",
        str "0000000000000000000000000000000000000000000000000000000000000000", str "ab"⟩
      (by decide)
  rw [h.2]
  decide

/-- C4 counterexample: a session name that itself ends in a space.  The
record's owner field is exactly that name followed by further trailing
whitespace, yet the check rejects, because the code trims the record side
only and compares for exact equality: trim turns the owner value into
"Jo Smith" which is not the session name "Jo Smith ". -/
theorem updateSite_trailing_ws_name_rejected :
    updateSite [(fieldApprovalStatus, str "X")] (str "Jo Smith ")
      (some [(fieldPilotNameText, str "Jo Smith  ")]) = UpdateResult.unauthorized := by
  decide

/-- C4 amended: updateSite fetches the record's owner field, trims it and
compares it for exact equality with the session name; on mismatch (or a
missing owner field) it stops with the authorization error and never
issues the PATCH; on match it issues the PATCH with the allowlisted
fields.  A record whose owner is the session name plus trailing whitespace
passes the check provided the session name itself carries no leading or
trailing whitespace. -/
theorem updateSite_owner_check (α : Type) (fields : List (Str × α)) (name : Str)
    (existingFields : List (Str × Str))
    (hsome : fields.filter (fun kv => allowedFields.contains kv.1) ≠ []) :
    ((lookupField existingFields fieldPilotNameText).map jsTrim ≠ some name →
      updateSite fields name (some existingFields) = .unauthorized
      ∧ ∀ sf, updateSite fields name (some existingFields) ≠ .patched sf)
    ∧ (∀ owner, lookupField existingFields fieldPilotNameText = some owner →
        jsTrim owner = name →
        updateSite fields name (some existingFields) =
          .patched (fields.filter (fun kv => allowedFields.contains kv.1)))
    ∧ (∀ t, jsTrim name = name → (∀ c ∈ t, isJsSpace c = true) →
        lookupField existingFields fieldPilotNameText = some (name ++ t) →
        updateSite fields name (some existingFields) =
          .patched (fields.filter (fun kv => allowedFields.contains kv.1))) := by
  have hie : (fields.filter (fun kv => allowedFields.contains kv.1)).isEmpty = false := by
    cases hfe : (fields.filter (fun kv => allowedFields.contains kv.1)).isEmpty
    · rfl
    · exact absurd (List.isEmpty_iff.mp hfe) hsome
  refine ⟨?_, ?_, ?_⟩
  · intro hmism
    unfold updateSite
    simp only [hie, Bool.false_eq_true, if_false]
    rw [if_pos hmism]
    exact ⟨rfl, fun sf h => UpdateResult.noConfusion h⟩
  · intro owner hlook htrim
    unfold updateSite
    simp only [hie, Bool.false_eq_true, if_false]
    rw [if_neg (by rw [hlook]; simp [htrim])]
  · intro t hn ht hlook
    have htrim : jsTrim (name ++ t) = name := jsTrim_eq_self_append_ws name t hn ht
    unfold updateSite
    simp only [hie, Bool.false_eq_true, if_false]
    rw [if_neg (by rw [hlook]; simp [htrim])]

/-- Witness for the amended C4: scenario B of the specification, a clean
session name against an owner value carrying a trailing space. -/
theorem updateSite_owner_check_witness :
    updateSite [(fieldApprovalStatus, str "X")] (str "Jo Smith")
      (some [(fieldPilotNameText, str "Jo Smith ")]) =
      UpdateResult.patched [(fieldApprovalStatus, str "X")] := by
  have h := (updateSite_owner_check Str [(fieldApprovalStatus, str "X")] (str "Jo Smith")
      [(fieldPilotNameText, str "Jo Smith ")] (by decide)).2.2
      [' '] (by decide) (by decide) (by decide)
  rw [h]
  decide

/-- C10: whenever updateSite issues its PATCH, the body is exactly the
input fields filtered through the fixed allowlist, so every key it can
ever mutate lies in the allowlist and every other key is silently
dropped; and when no input key lies in the allowlist it stops with the
no-valid-fields error for every possible remote state, before any remote
call can matter. -/
theorem updateSite_allowlist (α : Type) (fields : List (Str × α))
    (pilotName : Str) :
    (∀ fetched sf, updateSite fields pilotName fetched = .patched sf →
        sf = fields.filter (fun kv => allowedFields.contains kv.1)
        ∧ ∀ kv ∈ sf, kv.1 ∈ allowedFields)
    ∧ ((∀ kv ∈ fields, kv.1 ∉ allowedFields) →
        ∀ fetched, updateSite fields pilotName fetched = .noValidFields) := by
  constructor
  · intro fetched sf h
    unfold updateSite at h
    simp only [] at h
    split at h
    · cases h
    · split at h
      · cases h
      · split at h
        · cases h
        · cases h
          refine ⟨rfl, ?_⟩
          intro kv hkv
          have := (List.mem_filter.mp hkv).2
          simpa using this
  · intro hnone fetched
    have hfe : fields.filter (fun kv => allowedFields.contains kv.1) = [] := by
      rw [List.filter_eq_nil_iff]
      intro kv hkv
      simpa using hnone kv hkv
    unfold updateSite
    rw [if_pos (by rw [hfe]; rfl)]

/-- Witness for C10: a single non-allowlisted field is rejected before any
remote interaction. -/
theorem updateSite_allowlist_witness :
    updateSite [(str "Site Name", str "v")] (str "p") (some []) =
      UpdateResult.noValidFields :=
  (updateSite_allowlist Str [(str "Site Name", str "v")] (str "p")).2
    (by decide) (some [])
